import Mathlib

/-!
# Verification of the qv-rag orchestration layer

A shallow embedding of the glue logic in `qv_rag` (modules `engine.py`,
`storage.py`, `text_splitter.py`).  The repository delegates all heavy
lifting (vector search, embeddings, chunk-boundary heuristics) to
external libraries; those collaborators are modelled as abstract
parameters (`TextSplitter` fields, an `Except`-valued result of the
underlying store call), while every line of the repository's own logic —
split-type dispatch, metadata replication, id generation, padding,
result reshaping, exception-to-default conversion — is embedded
faithfully.

Python conventions used in the embedding:
* a Python `dict` is an association list with unique keys; `d[k] = v`
  replaces the value in place if `k` is present, else appends;
* `raise` / exceptions are `Except`;
* stateful mutation of a caller-supplied dict is explicit state passing:
  `engineAddFile` returns the caller's mapping as it stands after the
  call, alongside the storage effect;
* a call into the vector store is recorded as a value (`StorageAdd`)
  rather than performed, so "no storage call" is `none`.
-/

/-- Metadata mapping (a Python dict).  Values in the source are `Any`;
the orchestration code never inspects them, and every value the claims
mention is a string, so `String` values suffice. -/
abbrev Metadata : Type := List (String × String)

/-- Python `d[k] = v` on a dict: replace the value of an existing key in
place, otherwise append the new binding at the end. -/
def dictInsert (d : Metadata) (k v : String) : Metadata :=
  if (List.any d (fun kv => kv.1 == k)) then
    List.map (fun kv => if kv.1 == k then (k, v) else kv) d
  else
    d ++ [(k, v)]

/-- Python `d.get(k)` / `d[k]` lookup (first binding wins). -/
def dictGet (d : Metadata) (k : String) : Option String :=
  List.lookup k d

/-- Embeds `for t in texts: out.extend(f(t))` — the chunk-accumulation loop
used throughout `engine.add_texts` and `TextSplitter.split_texts`. -/
def joinMap (f : α → List β) (xs : List α) : List β :=
  (xs.map f).flatten

/-- The `TextSplitter` wrapper.  The four splitting strategies are the
external langchain splitters configured in `text_splitter.py`
(`RecursiveCharacterTextSplitter`, `MarkdownHeaderTextSplitter`,
`HTMLSemanticPreservingSplitter`, `RecursiveJsonSplitter`); they are
opaque to this layer and modelled as abstract functions from a document
to its list of chunks. -/
structure TextSplitter where
  split_text : String → List String
  split_markdown : String → List String
  split_html_semantic : String → List String
  split_json : String → List String

/-- Embeds `TextSplitter.split_texts`: loop over the texts, extending with the
chunks of each. -/
def TextSplitter.split_texts (sp : TextSplitter) (texts : List String) : List String :=
  joinMap sp.split_text texts

/-- Exceptions raised by the engine layer. -/
inductive EngineError where
  /-- Raised as `ValueError(f"Unsupported split_type: ...")` in `add_texts`. -/
  | unsupportedSplitType : String → EngineError
  /-- Python `IndexError` from `metadatas[i]` when the metadata list is
  shorter than the text list. -/
  | indexError : EngineError
deriving DecidableEq

/-- The arguments of a `collection.add(documents=…, metadatas=…, ids=…)`
call forwarded to the external vector store. -/
structure StorageAdd where
  documents : List String
  metadatas : List Metadata
  ids : List String
deriving DecidableEq

/-- Embeds `[f"doc{i}" for i in range(n)]` — the ids `ChromaStorage.add_texts`
generates when the caller supplies none. -/
def generatedIds (n : Nat) : List String :=
  (List.range n).map (fun i => "doc" ++ toString i)

/-- Embeds `ChromaStorage.add_texts`: early return on empty input, id
generation, metadata normalisation (pad a short list with empty dicts;
`range` of a negative number is empty, so a long list is left as is),
then the forwarded `collection.add` call.  `none` means no store call
was made. -/
def storageAddTexts (texts : List String) (metadatas : Option (List Metadata))
    (ids : Option (List String)) : Option StorageAdd :=
  if texts = [] then none
  else
    let ids2 := match ids with
      | none => generatedIds texts.length
      | some l => l
    let metadatas2 := match metadatas with
      | none => texts.map (fun _ => ([] : Metadata))
      | some ml =>
          if ml.length ≠ texts.length then
            ml ++ (List.range (texts.length - ml.length)).map (fun _ => ([] : Metadata))
          else ml
    some { documents := texts, metadatas := metadatas2, ids := ids2 }

/-- The chunk-computation dispatch at the top of `RAGEngine.add_texts`:
four recognised split types, anything else raises `ValueError`. -/
def engineChunks (sp : TextSplitter) (texts : List String) (split_type : String) :
    Except EngineError (List String) :=
  if split_type = "text" then .ok (sp.split_texts texts)
  else if split_type = "markdown" then .ok (joinMap sp.split_markdown texts)
  else if split_type = "html" then .ok (joinMap sp.split_html_semantic texts)
  else if split_type = "json" then .ok (joinMap sp.split_json texts)
  else .error (.unsupportedSplitType split_type)

/-- The per-text chunk computation inside the metadata-replication loop
of `RAGEngine.add_texts`.  The default branch is unreachable: the loop
only runs after the dispatch above has validated `split_type`. -/
def textChunksFor (sp : TextSplitter) (split_type : String) (text : String) : List String :=
  if split_type = "text" then sp.split_text text
  else if split_type = "markdown" then sp.split_markdown text
  else if split_type = "html" then sp.split_html_semantic text
  else if split_type = "json" then sp.split_json text
  else []

/-- The metadata-replication loop of `RAGEngine.add_texts`:
`for i, text in enumerate(texts): for chunk in text_chunks:
chunk_metadatas.append(metadatas[i])`.  `metadatas[i]` raises
`IndexError` when `i` is out of range. -/
def replicateMetasAux (sp : TextSplitter) (split_type : String) (ml : List Metadata) :
    List String → Nat → Except EngineError (List Metadata)
  | [], _ => .ok []
  | t :: ts, i =>
    match ml[i]? with
    | none => .error .indexError
    | some m => do
      let rest ← replicateMetasAux sp split_type ml ts (i + 1)
      .ok (List.replicate (textChunksFor sp split_type t).length m ++ rest)

/-- Embeds `RAGEngine.add_texts`: early return on empty `texts`, chunk
computation (may raise), metadata replication when a truthy metadata
list was supplied (may raise `IndexError`), then the call into
`ChromaStorage.add_texts`.  The payload records the `collection.add`
call that results (`none` = no call reached the store). -/
def engineAddTexts (sp : TextSplitter) (texts : List String)
    (metadatas : Option (List Metadata)) (split_type : String) :
    Except EngineError (Option StorageAdd) :=
  if texts = [] then .ok none
  else do
    let chunks ← engineChunks sp texts split_type
    let chunk_metadatas ← match metadatas with
      | none => Except.ok none
      | some ml =>
          if ml = [] then Except.ok none
          else (replicateMetasAux sp split_type ml texts 0).map some
    .ok (storageAddTexts chunks chunk_metadatas none)

/-- Reference form of the replicated metadata list: for each text its
chunk count many copies of its own metadata, in document order. -/
def replicatedMetas (sp : TextSplitter) (split_type : String)
    (texts : List String) (ml : List Metadata) : List Metadata :=
  joinMap (fun p => List.replicate (textChunksFor sp split_type p.1).length p.2)
    (texts.zip ml)

/-! ## `RAGEngine.add_file` -/

/-- The final path component: `pathlib.PurePath.name` (trailing
separators are dropped during `Path` construction). -/
def pathName (p : String) : String :=
  String.mk ((p.toList.reverse.dropWhile (fun c => c == '/')).takeWhile
    (fun c => c != '/')).reverse

/-- Embeds `pathlib.PurePath.suffix`: the extension of the final component,
with the dot, and `""` when the last dot is its first character or its
last character (so `.bashrc` and `file.` have no extension). -/
def pathSuffix (p : String) : String :=
  let cs := (pathName p).toList
  if cs.contains '.' then
    let after := (cs.reverse.takeWhile (fun c => c != '.')).reverse
    let i := cs.length - after.length - 1
    if 0 < i && i + 1 < cs.length then String.mk ('.' :: after) else ""
  else ""

/-- Character-wise ASCII lowercasing, as Python `str.lower()` behaves
on the extension strings this code compares against. -/
def lowerStr (s : String) : String :=
  String.mk (s.toList.map Char.toLower)

/-- Embeds `file_path.suffix.lower()[1:]` — the extension `add_file` detects
when no override is given. -/
def detectedFileType (p : String) : String :=
  (lowerStr (pathSuffix p)).drop 1

/-- The `split_type_map` lookup in `add_file` with its `"text"`
default: `split_type_map.get(file_type, "text")`. -/
def splitTypeMap (file_type : String) : String :=
  if file_type = "txt" then "text"
  else if file_type = "md" then "markdown"
  else if file_type = "html" then "html"
  else if file_type = "htm" then "html"
  else if file_type = "json" then "json"
  else "text"

/-- Embeds `RAGEngine.add_file`.  `content` stands for the text read from the
file (file IO is external); `str(Path(file_path))` is taken as the
given path string.  The caller's metadata dict is mutated in place by
the two key assignments; the post-call state of that dict is returned
as the second component (explicit state passing for the mutation). -/
def engineAddFile (sp : TextSplitter) (file_path : String) (content : String)
    (metadata : Option Metadata) (file_type : Option String) :
    Except EngineError (Option StorageAdd) × Metadata :=
  let ft := file_type.getD (detectedFileType file_path)
  let split_type := splitTypeMap ft
  let m0 := metadata.getD []
  let m1 := dictInsert (dictInsert m0 "source" file_path) "file_type" ft
  (engineAddTexts sp [content] (some [m1]) split_type, m1)

/-- The split-type selection of `add_file` in isolation (lines 111–127
of `engine.py`): detect the extension unless overridden, then look it
up in `split_type_map` with default `"text"`. -/
def addFileSplitType (file_path : String) (file_type : Option String) : String :=
  splitTypeMap (file_type.getD (detectedFileType file_path))

/-- The extension table exactly as the spec words it: "`.txt`→plain
split, `.md`→markdown split, `.html`/`.htm`→html split, `.json`→json
split, any other extension→plain split (default fallback)", with the
split strategies named by their `add_texts` tags.  Written from the
spec, to be compared with the source's `splitTypeMap`. -/
def specExtensionSplit (ext : String) : String :=
  if ext = "txt" then "text"
  else if ext = "md" then "markdown"
  else if ext = "html" ∨ ext = "htm" then "html"
  else if ext = "json" then "json"
  else "text"

/-! ## `ChromaStorage.query` and `get_collection_info` -/

/-- The dict returned by `collection.query` on the external store,
polymorphic in the distance type (a float in the real store; this layer
never computes with it).  `none` on a field models an absent key. -/
structure ChromaResult (D : Type) where
  documents : Option (List (List String))
  metadatas : Option (List (List Metadata))
  distances : Option (List (List D))
deriving DecidableEq

/-- One formatted match: the dict literal
`{"text": …, "metadata": …, "distance": …}` built per result, kept as a
key-value list so that "exactly these keys" is a provable property. -/
inductive RVal (D : Type) where
  | vstr : String → RVal D
  | vmeta : Metadata → RVal D
  | vdist : Option D → RVal D
deriving DecidableEq

def mkResult (t : String) (m : Metadata) (d : Option D) : List (String × RVal D) :=
  [("text", RVal.vstr t), ("metadata", RVal.vmeta m), ("distance", RVal.vdist d)]

/-- Embeds `results["metadatas"][0][i] if results.get("metadatas") and
results["metadatas"] else {}` — the key may be absent or the list falsy
(then `{}`), and indexing into the first row may raise `IndexError`. -/
def metaAt (r : ChromaResult D) (i : Nat) : Except String Metadata :=
  match r.metadatas with
  | none => .ok []
  | some [] => .ok []
  | some (m0 :: _) =>
    match m0[i]? with
    | some m => .ok m
    | none => .error "IndexError"

/-- Embeds `results["distances"][0][i] if results.get("distances") and
results["distances"] else None`. -/
def distAt (r : ChromaResult D) (i : Nat) : Except String (Option D) :=
  match r.distances with
  | none => .ok none
  | some [] => .ok none
  | some (d0 :: _) =>
    match d0[i]? with
    | some d => .ok (some d)
    | none => .error "IndexError"

/-- The result-formatting loop: `for i in range(len(documents[0]))`,
building one dict per match, in store order. -/
def formatAux (r : ChromaResult D) : List String → Nat → Except String (List (List (String × RVal D)))
  | [], _ => .ok []
  | t :: ts, i =>
    match metaAt r i with
    | .error e => .error e
    | .ok m =>
      match distAt r i with
      | .error e => .error e
      | .ok d =>
        match formatAux r ts (i + 1) with
        | .error e => .error e
        | .ok rest => .ok (mkResult t m d :: rest)

/-- The body of `ChromaStorage.query` after the `collection.query`
call: the truthiness guard on `results["documents"]`, then the
formatting loop. -/
def formatResults (r : ChromaResult D) : Except String (List (List (String × RVal D))) :=
  match r.documents with
  | none => .ok []
  | some [] => .ok []
  | some (d0 :: _) => formatAux r d0 0

/-- Embeds `ChromaStorage.query`: the whole body sits in a
`try … except Exception: return []`, with `underlying` the outcome of
the external `collection.query` call. -/
def storageQuery (underlying : Except String (ChromaResult D)) :
    List (List (String × RVal D)) :=
  match underlying.bind formatResults with
  | .ok l => l
  | .error _ => []

/-- Embeds `RAGEngine.query`, a pass-through to `ChromaStorage.query`. -/
def engineQuery (underlying : Except String (ChromaResult D)) :
    List (List (String × RVal D)) :=
  storageQuery underlying

/-- Embeds `ChromaStorage.get_collection_info`: return the name and count
fetched from the store, degrading any exception to the placeholder
`{"name": "unknown", "count": 0}`. -/
def getCollectionInfo (fetch : Except String (String × Nat)) : String × Nat :=
  match fetch with
  | .ok info => info
  | .error _ => ("unknown", 0)

/-- Embeds `RAGEngine.get_info`, a pass-through to
`ChromaStorage.get_collection_info`. -/
def engineGetInfo (fetch : Except String (String × Nat)) : String × Nat :=
  getCollectionInfo fetch

/-- A concrete splitter instance used to exercise the embedding on
closed inputs: plain-text splitting cuts a document after two
characters, the structured strategies keep the document whole. -/
def sampleSplitter : TextSplitter where
  split_text := fun s => if s.length ≤ 2 then [s] else [s.take 2, s.drop 2]
  split_markdown := fun s => [s]
  split_html_semantic := fun s => [s]
  split_json := fun s => [s]

/-! ## Helper lemmas -/


theorem lookup_cons_self {β : Type _} (a : String) (b : β) (es : List (String × β)) :
    List.lookup a ((a, b) :: es) = some b := by
  rw [List.lookup_cons]
  simp

theorem lookup_cons_ne {β : Type _} (q a : String) (b : β) (es : List (String × β))
    (h : q ≠ a) :
    List.lookup q ((a, b) :: es) = List.lookup q es := by
  rw [List.lookup_cons]
  simp [beq_false_of_ne h]

theorem lookup_eq_none_of_not_any (k : String) :
    ∀ d : Metadata, ¬(d.any (fun x => x.1 == k) = true) → List.lookup k d = none
  | [], _ => rfl
  | (a, b) :: rest, h => by
    simp only [List.any_cons, Bool.or_eq_true, beq_iff_eq, not_or] at h
    rw [lookup_cons_ne _ _ _ _ (fun hc => h.1 hc.symm)]
    exact lookup_eq_none_of_not_any k rest (by simpa using h.2)

theorem lookup_replaceAll (k v q : String) (d : Metadata) :
    List.lookup q (List.map (fun kv => if kv.1 == k then (k, v) else kv) d) =
      (if q = k then (if d.any (fun x => x.1 == k) then some v else none)
       else List.lookup q d) := by
  induction d with
  | nil => by_cases hq : q = k <;> simp [hq, List.lookup]
  | cons kv rest ih =>
    obtain ⟨a, b⟩ := kv
    by_cases hk : a = k
    · subst hk
      by_cases hq : q = a
      · subst hq
        simp [lookup_cons_self, List.any_cons]
      · simp only [List.map_cons, beq_self_eq_true, if_true, List.any_cons,
          Bool.true_or]
        rw [lookup_cons_ne _ _ _ _ hq, lookup_cons_ne _ _ _ _ hq, ih, if_neg hq,
          if_neg hq]
    · by_cases hq : q = a
      · subst hq
        simp only [List.map_cons, beq_false_of_ne hk, Bool.false_eq_true,
          if_false, List.any_cons, Bool.false_or]
        rw [lookup_cons_self, lookup_cons_self, if_neg hk]
      · simp only [List.map_cons, beq_false_of_ne hk, Bool.false_eq_true,
          if_false, List.any_cons, Bool.false_or]
        rw [lookup_cons_ne _ _ _ _ hq, lookup_cons_ne _ _ _ _ hq, ih]

theorem lookup_append_single (q k v : String) (d : Metadata) :
    List.lookup q (d ++ [(k, v)]) =
      (match List.lookup q d with
       | some w => some w
       | none => if q = k then some v else none) := by
  induction d with
  | nil =>
    by_cases hq : q = k
    · subst hq
      simp [lookup_cons_self, List.lookup]
    · simp [lookup_cons_ne _ _ _ _ hq, hq, List.lookup, beq_false_of_ne hq]
  | cons kv rest ih =>
    obtain ⟨a, b⟩ := kv
    by_cases hq : q = a
    · subst hq
      simp [lookup_cons_self]
    · simp only [List.cons_append, lookup_cons_ne _ _ _ _ hq, ih]

theorem dictGet_dictInsert_self (d : Metadata) (k v : String) :
    dictGet (dictInsert d k v) k = some v := by
  unfold dictGet dictInsert
  by_cases ha : d.any (fun x => x.1 == k) = true
  · rw [if_pos ha, lookup_replaceAll]
    simp [ha]
  · rw [if_neg ha, lookup_append_single]
    rw [lookup_eq_none_of_not_any k d ha]
    simp

theorem dictGet_dictInsert_ne (d : Metadata) (k v q : String) (hq : q ≠ k) :
    dictGet (dictInsert d k v) q = dictGet d q := by
  unfold dictGet dictInsert
  by_cases ha : d.any (fun x => x.1 == k) = true
  · rw [if_pos ha, lookup_replaceAll, if_neg hq]
  · rw [if_neg ha, lookup_append_single]
    cases hl : List.lookup q d <;> simp [hq]

theorem textChunksFor_text (sp : TextSplitter) :
    textChunksFor sp "text" = sp.split_text := by
  funext t
  simp [textChunksFor]

theorem textChunksFor_markdown (sp : TextSplitter) :
    textChunksFor sp "markdown" = sp.split_markdown := by
  funext t
  simp [textChunksFor]

theorem textChunksFor_html (sp : TextSplitter) :
    textChunksFor sp "html" = sp.split_html_semantic := by
  funext t
  simp [textChunksFor]

theorem textChunksFor_json (sp : TextSplitter) :
    textChunksFor sp "json" = sp.split_json := by
  funext t
  simp [textChunksFor]

theorem engineChunks_valid (sp : TextSplitter) (texts : List String) (st : String)
    (hst : st = "text" ∨ st = "markdown" ∨ st = "html" ∨ st = "json") :
    engineChunks sp texts st = .ok (joinMap (textChunksFor sp st) texts) := by
  rcases hst with h | h | h | h <;> subst h <;>
    simp [engineChunks, TextSplitter.split_texts, textChunksFor_text,
      textChunksFor_markdown, textChunksFor_html, textChunksFor_json]

theorem replicateMetasAux_eq (sp : TextSplitter) (st : String) (ml : List Metadata) :
    ∀ (ts : List String) (i : Nat), ts.length + i ≤ ml.length →
      replicateMetasAux sp st ml ts i =
        .ok (joinMap (fun p => List.replicate (textChunksFor sp st p.1).length p.2)
              (ts.zip (ml.drop i)))
  | [], i, _ => by
    simp [replicateMetasAux, joinMap]
  | t :: ts, i, h => by
    have hi : i < ml.length := by
      simp only [List.length_cons] at h
      omega
    have hrest : ts.length + (i + 1) ≤ ml.length := by
      simp only [List.length_cons] at h
      omega
    have hdrop : ml.drop i = ml[i] :: ml.drop (i + 1) :=
      List.drop_eq_getElem_cons hi
    rw [replicateMetasAux, List.getElem?_eq_getElem hi]
    rw [replicateMetasAux_eq sp st ml ts (i + 1) hrest]
    rw [hdrop, List.zip_cons_cons]
    simp only [joinMap, List.map_cons, List.flatten_cons]
    rfl

theorem replicatedMetas_length (sp : TextSplitter) (st : String) :
    ∀ (texts : List String) (ml : List Metadata), texts.length ≤ ml.length →
      (replicatedMetas sp st texts ml).length =
        (joinMap (textChunksFor sp st) texts).length
  | [], _, _ => by simp [replicatedMetas, joinMap]
  | t :: ts, [], h => by simp at h
  | t :: ts, m :: ml, h => by
    have hlen : ts.length ≤ ml.length := by simpa using h
    have ih := replicatedMetas_length sp st ts ml hlen
    simp only [replicatedMetas, joinMap, List.zip_cons_cons, List.map_cons,
      List.flatten_cons, List.length_append, List.length_replicate] at ih ⊢
    omega

theorem engineAddTexts_eq (sp : TextSplitter) (texts : List String)
    (ml : List Metadata) (st : String) (hne : texts ≠ [])
    (hlen : texts.length ≤ ml.length)
    (hst : st = "text" ∨ st = "markdown" ∨ st = "html" ∨ st = "json") :
    engineAddTexts sp texts (some ml) st =
      .ok (storageAddTexts (joinMap (textChunksFor sp st) texts)
            (some (replicatedMetas sp st texts ml)) none) := by
  have hml : ml ≠ [] := by
    intro h
    subst h
    simp only [List.length_nil, Nat.le_zero, List.length_eq_zero] at hlen
    exact hne hlen
  have hrep := replicateMetasAux_eq sp st ml texts 0 (by omega)
  simp only [List.drop_zero] at hrep
  simp only [engineAddTexts, if_neg hne, engineChunks_valid sp texts st hst,
    if_neg hml, hrep, replicatedMetas]
  rfl

theorem storageAddTexts_some (texts : List String) (ml : List Metadata)
    (call : StorageAdd) (hlen : ml.length = texts.length)
    (h : storageAddTexts texts (some ml) none = some call) :
    call.documents = texts ∧ call.metadatas = ml ∧
      call.ids = generatedIds texts.length := by
  by_cases hne : texts = []
  · subst hne
    simp [storageAddTexts] at h
  · simp only [storageAddTexts, if_neg hne, hlen, ne_eq, not_true_eq_false,
      if_false, Option.some.injEq] at h
    subst h
    exact ⟨rfl, rfl, rfl⟩

theorem storageAddTexts_none_iff (texts : List String)
    (md : Option (List Metadata)) (ids : Option (List String)) :
    storageAddTexts texts md ids = none ↔ texts = [] := by
  constructor
  · intro h
    by_cases hne : texts = []
    · exact hne
    · simp [storageAddTexts, if_neg hne] at h
  · intro h
    subst h
    simp [storageAddTexts]

theorem splitTypeMap_valid (ext : String) :
    splitTypeMap ext = "text" ∨ splitTypeMap ext = "markdown" ∨
      splitTypeMap ext = "html" ∨ splitTypeMap ext = "json" := by
  unfold splitTypeMap
  split_ifs <;> simp

theorem storageAddTexts_ids (texts : List String) (md : Option (List Metadata))
    (c : StorageAdd) (h : storageAddTexts texts md none = some c) :
    c.ids = generatedIds texts.length ∧ texts ≠ [] := by
  by_cases hne : texts = []
  · subst hne
    simp [storageAddTexts] at h
  · refine ⟨?_, hne⟩
    simp only [storageAddTexts, if_neg hne, Option.some.injEq] at h
    subst h
    rfl

theorem mem_doc0_generatedIds (n : Nat) (h : 0 < n) : "doc0" ∈ generatedIds n := by
  simp only [generatedIds, List.mem_map]
  exact ⟨0, List.mem_range.mpr h, by decide⟩

theorem generatedIds_getElem (n i : Nat) (h : i < n) :
    (generatedIds n)[i]? = some ("doc" ++ toString i) := by
  simp [generatedIds, List.getElem?_map, List.getElem?_range h]

/-! ## The claims -/

/-- C5: calling `RAGEngine.add_texts` with an empty list of texts is a
no-op: it returns normally (no exception) with no storage call, and the
same holds one layer down for `ChromaStorage.add_texts` on empty input,
so the collection is untouched. -/
theorem spec_C5_empty_add_is_noop (sp : TextSplitter)
    (metadatas : Option (List Metadata)) (st : String)
    (ids : Option (List String)) :
    engineAddTexts sp [] metadatas st = .ok none ∧
    storageAddTexts [] metadatas ids = none := by
  constructor
  · simp [engineAddTexts]
  · simp [storageAddTexts]

/-- C8: when fetching the collection name or count raises any
exception, `ChromaStorage.get_collection_info` — and `RAGEngine.get_info`
through it — returns the placeholder `{"name": "unknown", "count": 0}`
instead of propagating the failure. -/
theorem spec_C8_info_failure_placeholder (e : String) :
    getCollectionInfo (Except.error e) = ("unknown", 0) ∧
    engineGetInfo (Except.error e) = ("unknown", 0) :=
  ⟨rfl, rfl⟩

/-- C2: with no explicit `file_type` override, the extension detected
by `add_file` selects the splitting strategy exactly as the spec's
table says (txt→text, md→markdown, html/htm→html, json→json, anything
else→text), shown by proving the source's selection pointwise equal to
the spec-worded table and evaluating it on sample paths of every kind. -/
theorem spec_C2_extension_mapping :
    (∀ p : String, addFileSplitType p none =
      specExtensionSplit (detectedFileType p)) ∧
    addFileSplitType "notes.txt" none = "text" ∧
    addFileSplitType "guide.md" none = "markdown" ∧
    addFileSplitType "page.html" none = "html" ∧
    addFileSplitType "page.htm" none = "html" ∧
    addFileSplitType "data.json" none = "json" ∧
    addFileSplitType "data.yaml" none = "text" ∧
    addFileSplitType "noextension" none = "text" ∧
    addFileSplitType "dir.d/REPORT.TXT" none = "text" := by
  refine ⟨?_, by decide, by decide, by decide, by decide, by decide,
    by decide, by decide, by decide⟩
  intro p
  unfold addFileSplitType splitTypeMap specExtensionSplit Option.getD
  by_cases h1 : detectedFileType p = "txt" <;>
    by_cases h2 : detectedFileType p = "md" <;>
      by_cases h3 : detectedFileType p = "html" <;>
        by_cases h4 : detectedFileType p = "htm" <;>
          by_cases h5 : detectedFileType p = "json" <;>
            simp_all

/-- C3: `add_texts` on a non-empty text list with a split-type tag
outside {text, markdown, html, json} raises `ValueError` to the caller,
and no storage call is made (the error is raised before any chunk
reaches the store). -/
theorem spec_C3_invalid_split_type_raises (sp : TextSplitter)
    (texts : List String) (metadatas : Option (List Metadata)) (st : String)
    (hne : texts ≠ []) (h1 : st ≠ "text") (h2 : st ≠ "markdown")
    (h3 : st ≠ "html") (h4 : st ≠ "json") :
    engineAddTexts sp texts metadatas st =
        .error (.unsupportedSplitType st) ∧
    ∀ call : StorageAdd, engineAddTexts sp texts metadatas st ≠ .ok (some call) := by
  have hchunks : engineChunks sp texts st = .error (.unsupportedSplitType st) := by
    simp [engineChunks, h1, h2, h3, h4]
  have hmain : engineAddTexts sp texts metadatas st =
      .error (.unsupportedSplitType st) := by
    simp [engineAddTexts, if_neg hne, hchunks, Except.bind, bind]
  exact ⟨hmain, fun call hc => by rw [hmain] at hc; exact Except.noConfusion hc⟩

theorem spec_C3_witness :
    engineAddTexts sampleSplitter ["x"] none "pdf" =
        .error (.unsupportedSplitType "pdf") ∧
    ∀ call : StorageAdd,
      engineAddTexts sampleSplitter ["x"] none "pdf" ≠ .ok (some call) :=
  spec_C3_invalid_split_type_raises sampleSplitter ["x"] none "pdf"
    (by decide) (by decide) (by decide) (by decide) (by decide)

/-- C9: whenever `ChromaStorage.add_texts` forwards a call without
explicit ids, the record ids are exactly `"doc0"` … `"doc{n-1}"` for
its `n` texts, generated fresh from `range(n)` on every call; hence any
two such calls (both non-empty) share the id `"doc0"`, so record
identity is not unique across successive adds. -/
theorem spec_C9_generated_ids_collide (texts1 texts2 : List String)
    (md1 md2 : Option (List Metadata)) (c1 c2 : StorageAdd)
    (h1 : storageAddTexts texts1 md1 none = some c1)
    (h2 : storageAddTexts texts2 md2 none = some c2) :
    c1.ids = generatedIds texts1.length ∧
    c2.ids = generatedIds texts2.length ∧
    c1.ids.length = texts1.length ∧
    (∀ i, i < texts1.length → c1.ids[i]? = some ("doc" ++ toString i)) ∧
    "doc0" ∈ c1.ids ∧ "doc0" ∈ c2.ids := by
  obtain ⟨hi1, hn1⟩ := storageAddTexts_ids texts1 md1 c1 h1
  obtain ⟨hi2, hn2⟩ := storageAddTexts_ids texts2 md2 c2 h2
  have hp1 : 0 < texts1.length := List.length_pos.mpr hn1
  have hp2 : 0 < texts2.length := List.length_pos.mpr hn2
  refine ⟨hi1, hi2, ?_, ?_, ?_, ?_⟩
  · rw [hi1]
    simp [generatedIds]
  · intro i hint
    rw [hi1]
    exact generatedIds_getElem _ _ hint
  · rw [hi1]
    exact mem_doc0_generatedIds _ hp1
  · rw [hi2]
    exact mem_doc0_generatedIds _ hp2

theorem spec_C9_witness :
    ∃ c1 c2 : StorageAdd,
      storageAddTexts ["a", "b"] none none = some c1 ∧
      storageAddTexts ["c"] none none = some c2 ∧
      c1.ids = generatedIds 2 ∧ c2.ids = generatedIds 1 ∧
      "doc0" ∈ c1.ids ∧ "doc0" ∈ c2.ids := by
  refine ⟨⟨["a", "b"], [[], []], ["doc0", "doc1"]⟩,
    ⟨["c"], [[]], ["doc0"]⟩, by decide, by decide, ?_⟩
  have h := spec_C9_generated_ids_collide ["a", "b"] ["c"] none none
    ⟨["a", "b"], [[], []], ["doc0", "doc1"]⟩ ⟨["c"], [[]], ["doc0"]⟩
    (by decide) (by decide)
  exact ⟨h.1, h.2.1, h.2.2.2.2.1, h.2.2.2.2.2⟩

/-- C1: for every non-empty text list and supplied metadata list
covering the texts, `add_texts` attaches to storage, for each text
split into `k_i` chunks, exactly `k_i` copies (by value) of the `i`-th
metadata mapping (`replicatedMetas` is by definition the concatenation
over `i` of `k_i` copies of `metadatas[i]`), so the metadata list
passed to storage equals the chunk list in total length, and the
forwarded `collection.add` call carries exactly these chunks and these
metadata entries. -/
theorem spec_C1_metadata_replication (sp : TextSplitter) (texts : List String)
    (ml : List Metadata) (st : String) (hne : texts ≠ [])
    (hlen : texts.length ≤ ml.length)
    (hst : st = "text" ∨ st = "markdown" ∨ st = "html" ∨ st = "json") :
    engineAddTexts sp texts (some ml) st =
      .ok (storageAddTexts (joinMap (textChunksFor sp st) texts)
            (some (replicatedMetas sp st texts ml)) none) ∧
    (replicatedMetas sp st texts ml).length =
      (joinMap (textChunksFor sp st) texts).length ∧
    ∀ call : StorageAdd,
      storageAddTexts (joinMap (textChunksFor sp st) texts)
          (some (replicatedMetas sp st texts ml)) none = some call →
        call.documents = joinMap (textChunksFor sp st) texts ∧
        call.metadatas = replicatedMetas sp st texts ml ∧
        call.metadatas.length = call.documents.length := by
  have hlen2 := replicatedMetas_length sp st texts ml hlen
  refine ⟨engineAddTexts_eq sp texts ml st hne hlen hst, hlen2, ?_⟩
  intro call hcall
  obtain ⟨hd, hm, _⟩ := storageAddTexts_some _ _ _ hlen2 hcall
  exact ⟨hd, hm, by rw [hd, hm, hlen2]⟩

theorem spec_C1_witness :
    engineAddTexts sampleSplitter ["abcd", "x"]
        (some [[("k", "1")], [("k", "2")]]) "text" =
      .ok (storageAddTexts
            (joinMap (textChunksFor sampleSplitter "text") ["abcd", "x"])
            (some (replicatedMetas sampleSplitter "text" ["abcd", "x"]
                    [[("k", "1")], [("k", "2")]])) none) ∧
    (replicatedMetas sampleSplitter "text" ["abcd", "x"]
        [[("k", "1")], [("k", "2")]]).length =
      (joinMap (textChunksFor sampleSplitter "text") ["abcd", "x"]).length :=
  ⟨(spec_C1_metadata_replication sampleSplitter ["abcd", "x"]
      [[("k", "1")], [("k", "2")]] "text" (by decide) (by decide) (Or.inl rfl)).1,
   (spec_C1_metadata_replication sampleSplitter ["abcd", "x"]
      [[("k", "1")], [("k", "2")]] "text" (by decide) (by decide) (Or.inl rfl)).2.1⟩

theorem engineAddFile_fst (sp : TextSplitter) (p content : String)
    (metadata : Option Metadata) (fty : Option String) :
    (engineAddFile sp p content metadata fty).1 =
      engineAddTexts sp [content]
        (some [dictInsert (dictInsert (metadata.getD []) "source" p)
                "file_type" (fty.getD (detectedFileType p))])
        (splitTypeMap (fty.getD (detectedFileType p))) := rfl

theorem engineAddFile_snd (sp : TextSplitter) (p content : String)
    (metadata : Option Metadata) (fty : Option String) :
    (engineAddFile sp p content metadata fty).2 =
      dictInsert (dictInsert (metadata.getD []) "source" p)
        "file_type" (fty.getD (detectedFileType p)) := rfl

theorem engineAddFile_call_metadatas (sp : TextSplitter) (p content : String)
    (metadata : Option Metadata) (fty : Option String) (call : StorageAdd)
    (hcall : (engineAddFile sp p content metadata fty).1 = .ok (some call))
    (m : Metadata) (hm : m ∈ call.metadatas) :
    m = dictInsert (dictInsert (metadata.getD []) "source" p)
          "file_type" (fty.getD (detectedFileType p)) := by
  rw [engineAddFile_fst] at hcall
  set ft := fty.getD (detectedFileType p) with hft
  set m1 := dictInsert (dictInsert (metadata.getD []) "source" p)
    "file_type" ft with hm1
  set st := splitTypeMap ft with hstdef
  have hvalid := splitTypeMap_valid ft
  rw [engineAddTexts_eq sp [content] [m1] st (by simp) (by simp) hvalid] at hcall
  have hcall2 : storageAddTexts (joinMap (textChunksFor sp st) [content])
      (some (replicatedMetas sp st [content] [m1])) none = some call := by
    exact Except.ok.inj hcall
  have hlen2 := replicatedMetas_length sp st [content] [m1] (by simp)
  obtain ⟨_, hmeta, _⟩ := storageAddTexts_some _ _ _ hlen2 hcall2
  have hrepl : replicatedMetas sp st [content] [m1] =
      List.replicate (textChunksFor sp st content).length m1 := by
    simp [replicatedMetas, joinMap]
  rw [hmeta, hrepl] at hm
  exact List.eq_of_mem_replicate hm

/-- C6: every chunk metadata passed to storage by `add_file` carries
`source` equal to the file path and `file_type` equal to the detected
(or overridden) type, while every other key keeps the caller-supplied
value. -/
theorem spec_C6_file_metadata_keys (sp : TextSplitter) (p content : String)
    (metadata : Option Metadata) (fty : Option String) (call : StorageAdd)
    (hcall : (engineAddFile sp p content metadata fty).1 = .ok (some call))
    (m : Metadata) (hm : m ∈ call.metadatas) :
    dictGet m "source" = some p ∧
    dictGet m "file_type" = some (fty.getD (detectedFileType p)) ∧
    ∀ k, k ≠ "source" → k ≠ "file_type" →
      dictGet m k = dictGet (metadata.getD []) k := by
  rw [engineAddFile_call_metadatas sp p content metadata fty call hcall m hm]
  refine ⟨?_, ?_, ?_⟩
  · rw [dictGet_dictInsert_ne _ _ _ _ (by decide), dictGet_dictInsert_self]
  · rw [dictGet_dictInsert_self]
  · intro k hk1 hk2
    rw [dictGet_dictInsert_ne _ _ _ _ hk2, dictGet_dictInsert_ne _ _ _ _ hk1]

theorem spec_C6_witness :
    (engineAddFile sampleSplitter "docs/a.md" "# T" (some [("author", "me")])
        none).1 =
      .ok (some ⟨["# T"], [[("author", "me"), ("source", "docs/a.md"),
        ("file_type", "md")]], ["doc0"]⟩) ∧
    dictGet [("author", "me"), ("source", "docs/a.md"), ("file_type", "md")]
        "source" = some "docs/a.md" ∧
    dictGet [("author", "me"), ("source", "docs/a.md"), ("file_type", "md")]
        "file_type" = some (Option.getD none (detectedFileType "docs/a.md")) := by
  have hc : (engineAddFile sampleSplitter "docs/a.md" "# T"
      (some [("author", "me")]) none).1 =
      .ok (some ⟨["# T"], [[("author", "me"), ("source", "docs/a.md"),
        ("file_type", "md")]], ["doc0"]⟩) := by rfl
  have h := spec_C6_file_metadata_keys sampleSplitter "docs/a.md" "# T"
    (some [("author", "me")]) none
    ⟨["# T"], [[("author", "me"), ("source", "docs/a.md"),
      ("file_type", "md")]], ["doc0"]⟩ hc
    [("author", "me"), ("source", "docs/a.md"), ("file_type", "md")] (by decide)
  exact ⟨hc, h.1, h.2.1⟩

/-- C10: `add_file` overwrites any caller-supplied values under
`source` and `file_type` (the stored values are always the path and the
detected/overridden type), and it mutates the caller's mapping itself
rather than a copy: the caller's dict after the call (the second
component, explicit state passing for the in-place `metadata[...] = …`
assignments) carries the injected keys — so it differs from its
pre-call value whenever the old `source` value differed from the path —
and every metadata entry handed to storage is that same post-call
dict. -/
theorem spec_C10_metadata_mutation (sp : TextSplitter) (p content : String)
    (m0 : Metadata) (fty : Option String) :
    dictGet (engineAddFile sp p content (some m0) fty).2 "source" = some p ∧
    dictGet (engineAddFile sp p content (some m0) fty).2 "file_type" =
      some (fty.getD (detectedFileType p)) ∧
    (∀ v, dictGet m0 "source" = some v → v ≠ p →
      (engineAddFile sp p content (some m0) fty).2 ≠ m0) ∧
    ∀ call : StorageAdd,
      (engineAddFile sp p content (some m0) fty).1 = .ok (some call) →
      ∀ m ∈ call.metadatas, m = (engineAddFile sp p content (some m0) fty).2 := by
  rw [engineAddFile_snd]
  simp only [Option.getD_some]
  have hsrc : dictGet (dictInsert (dictInsert m0 "source" p)
      "file_type" (fty.getD (detectedFileType p))) "source" = some p := by
    rw [dictGet_dictInsert_ne _ _ _ _ (by decide), dictGet_dictInsert_self]
  refine ⟨hsrc, by rw [dictGet_dictInsert_self], ?_, ?_⟩
  · intro v hv hvp heq
    rw [heq, hv] at hsrc
    exact hvp (Option.some.inj hsrc)
  · intro call hcall m hm
    have h := engineAddFile_call_metadatas sp p content (some m0) fty call hcall m hm
    simpa using h

theorem spec_C10_witness :
    dictGet (engineAddFile sampleSplitter "b.txt" "hi"
        (some [("source", "old"), ("x", "y")]) none).2 "source" = some "b.txt" ∧
    (engineAddFile sampleSplitter "b.txt" "hi"
        (some [("source", "old"), ("x", "y")]) none).2 ≠
      [("source", "old"), ("x", "y")] := by
  have h := spec_C10_metadata_mutation sampleSplitter "b.txt" "hi"
    [("source", "old"), ("x", "y")] none
  exact ⟨h.1, h.2.2.1 "old" (by decide) (by decide)⟩

/-- C4: any exception raised by the underlying `collection.query` call
is swallowed by `ChromaStorage.query` (and so by `RAGEngine.query`) and
turned into `[]`, indistinguishable from the empty-collection result:
querying an empty collection (the store returns one empty match row)
also yields `[]`, not an error. -/
theorem spec_C4_query_error_masked {D : Type} (e : String) (r : ChromaResult D)
    (hr : r.documents = some [[]]) :
    storageQuery (Except.error e : Except String (ChromaResult D)) = [] ∧
    engineQuery (Except.error e : Except String (ChromaResult D)) = [] ∧
    storageQuery (Except.ok r) = [] ∧
    engineQuery (Except.ok r) = [] ∧
    engineQuery (Except.ok r) =
      engineQuery (Except.error e : Except String (ChromaResult D)) := by
  obtain ⟨docs, mds, ds⟩ := r
  simp only at hr
  subst hr
  exact ⟨rfl, rfl, rfl, rfl, rfl⟩

theorem spec_C4_witness :
    storageQuery (Except.error "store unavailable" :
        Except String (ChromaResult Int)) = [] ∧
    engineQuery (Except.error "store unavailable" :
        Except String (ChromaResult Int)) = [] ∧
    storageQuery (Except.ok (⟨some [[]], none, none⟩ : ChromaResult Int)) = [] ∧
    engineQuery (Except.ok (⟨some [[]], none, none⟩ : ChromaResult Int)) = [] ∧
    engineQuery (Except.ok (⟨some [[]], none, none⟩ : ChromaResult Int)) =
      engineQuery (Except.error "store unavailable" :
        Except String (ChromaResult Int)) :=
  spec_C4_query_error_masked "store unavailable"
    (⟨some [[]], none, none⟩ : ChromaResult Int) rfl

theorem formatAux_shape {D : Type} (r : ChromaResult D) :
    ∀ (ts : List String) (i : Nat) (out : List (List (String × RVal D))),
      formatAux r ts i = .ok out →
      (∀ m ∈ out, m.map Prod.fst = ["text", "metadata", "distance"]) ∧
      out.map (fun m => List.lookup "text" m) =
        ts.map (fun t => some (RVal.vstr t))
  | [], i, out, h => by
    simp only [formatAux, Except.ok.injEq] at h
    subst h
    simp
  | t :: ts, i, out, h => by
    cases hm : metaAt r i with
    | error e => simp [formatAux, hm] at h
    | ok mv =>
      cases hd : distAt r i with
      | error e => simp [formatAux, hm, hd] at h
      | ok dv =>
        cases hrest : formatAux r ts (i + 1) with
        | error e => simp [formatAux, hm, hd, hrest] at h
        | ok rest =>
          simp only [formatAux, hm, hd, hrest, Except.ok.injEq] at h
          subst h
          obtain ⟨ih1, ih2⟩ := formatAux_shape r ts (i + 1) rest hrest
          constructor
          · intro m hmem
            rcases List.mem_cons.mp hmem with hmem | hmem
            · subst hmem
              rfl
            · exact ih1 m hmem
          · simp only [List.map_cons, ih2, List.cons.injEq, and_true]
            rw [mkResult, lookup_cons_self]

/-- C7: on a successful query (underlying call and formatting both
succeed), each returned match is a dict with exactly the keys `text`,
`metadata`, `distance` in that layout, and the result list carries the
store's first match row in the store's own rank order (the text at
position `j` is the store's `j`-th ranked document; nothing is
reordered or recomputed). -/
theorem spec_C7_result_shape_order {D : Type} (r : ChromaResult D)
    (d0 : List String) (ds : List (List String))
    (out : List (List (String × RVal D)))
    (hdoc : r.documents = some (d0 :: ds))
    (hout : formatResults r = .ok out) :
    storageQuery (Except.ok r) = out ∧
    (∀ m ∈ out, m.map Prod.fst = ["text", "metadata", "distance"]) ∧
    out.map (fun m => List.lookup "text" m) =
      d0.map (fun t => some (RVal.vstr t)) := by
  have hfa : formatAux r d0 0 = .ok out := by
    simp only [formatResults, hdoc] at hout
    exact hout
  have hshape := formatAux_shape r d0 0 out hfa
  refine ⟨?_, hshape.1, hshape.2⟩
  simp [storageQuery, Except.bind, hout]

theorem spec_C7_witness :
    storageQuery (Except.ok (⟨some [["hi", "yo"]],
        some [[[("a", "b")], []]], some [[(1 : Int), 2]]⟩ : ChromaResult Int)) =
      [mkResult "hi" [("a", "b")] (some (1 : Int)),
       mkResult "yo" [] (some (2 : Int))] ∧
    ∀ m ∈ [mkResult "hi" [("a", "b")] (some (1 : Int)),
           mkResult "yo" [] (some (2 : Int))],
      m.map Prod.fst = ["text", "metadata", "distance"] := by
  have h := spec_C7_result_shape_order (⟨some [["hi", "yo"]],
      some [[[("a", "b")], []]], some [[(1 : Int), 2]]⟩ : ChromaResult Int)
    ["hi", "yo"] [] [mkResult "hi" [("a", "b")] (some (1 : Int)),
      mkResult "yo" [] (some (2 : Int))] rfl (by rfl)
  exact ⟨h.1, h.2.1⟩
